import Mathlib

/-!
Verification development for the nym client fragment: the visible sources are
the static menu component (nym-connect) and the worker bundler configuration
(mix-fetch-node), and the specified mixnet packet client core (Framer, Packet
Codec, Session Manager), which is modelled from the specification text since
its code is not part of the visible fragment.
-/

/-- Modelled from the spec: the error taxonomy of the mixnet packet client
core (section 7 of the specification). -/
inductive NymError where
  | HandshakeFailed
  | NotConnected
  | SessionClosed
  | MalformedPacket
  | UnsupportedVersion
  | OutOfOrderDiscard
  | Timeout
  | EncodingTooLarge
  | UnmatchedPacket
deriving DecidableEq

/-- Modelled from the spec: a Fragment is a bounded-size chunk of a payload
carrying its identifier (payload id, sequence number, total count).  Bytes are
modelled as natural numbers. -/
structure Fragment where
  payloadId : Nat
  seqNr : Nat
  total : Nat
  data : List Nat
deriving DecidableEq

/-- Fuel-driven chunking: splits a byte list into consecutive chunks of at
most n bytes; the fuel is an upper bound on the list length. -/
def chunksAux (n : Nat) : Nat → List Nat → List (List Nat)
  | 0, _ => []
  | _ + 1, [] => []
  | fuel + 1, x :: xs => ((x :: xs).take n) :: chunksAux n fuel ((x :: xs).drop n)

/-- Splits a byte list into consecutive chunks of at most n bytes. -/
def chunks (n : Nat) (xs : List Nat) : List (List Nat) := chunksAux n xs.length xs

/-- Modelled from the spec: the chunk list backing fragmentation; an empty
payload yields one empty chunk so that fragmentation never produces zero
fragments. -/
def chunksOf (n : Nat) (P : List Nat) : List (List Nat) :=
  if P = [] then [[]] else chunks n P

/-- Builds the fragments for a chunk list, numbering them consecutively from
the start index i and stamping each with the payload id and total count. -/
def mkFrags (pid total : Nat) : Nat → List (List Nat) → List Fragment
  | _, [] => []
  | i, c :: cs => ⟨pid, i, total, c⟩ :: mkFrags pid total (i + 1) cs

/-- Modelled from the spec: `fragment(payload, maxFragmentSize)` splits the
payload into ordered fragments sharing one payload id; an empty payload yields
one empty fragment. -/
def fragment (pid : Nat) (P : List Nat) (n : Nat) : List Fragment :=
  mkFrags pid (chunksOf n P).length 0 (chunksOf n P)

/-- Looks up the fragment with sequence number i among the received ones. -/
def findChunk (frags : List Fragment) (i : Nat) : Option Fragment :=
  frags.find? (fun g => g.seqNr == i)

/-- Collects the data of the fragments with sequence numbers 0..t-1 in
original order; fails if any index is missing. -/
def collectChunks (frags : List Fragment) : Nat → Option (List (List Nat))
  | 0 => some []
  | i + 1 =>
    match collectChunks frags i, findChunk frags i with
    | some acc, some f => some (acc ++ [f.data])
    | _, _ => none

/-- Modelled from the spec: batch reassembly of the received fragments of one
payload in wire order.  Succeeds only when the fragments agree on payload id
and declared total, the full count is present, and the sequence numbers cover
the declared total; the payload is rebuilt in original order. -/
def reassemble (frags : List Fragment) : Option (List Nat) :=
  match frags with
  | [] => none
  | f :: _ =>
    if (frags.length == f.total)
        && frags.all (fun g => (g.payloadId == f.payloadId) && (g.total == f.total)) then
      (collectChunks frags f.total).map List.flatten
    else none

theorem chunksAux_flatten (n : Nat) (hn : 0 < n) :
    ∀ (fuel : Nat) (xs : List Nat), xs.length ≤ fuel →
      (chunksAux n fuel xs).flatten = xs := by
  intro fuel
  induction fuel with
  | zero =>
    intro xs hxs
    have : xs = [] := List.eq_nil_of_length_eq_zero (Nat.le_zero.mp hxs)
    subst this
    rfl
  | succ m ih =>
    intro xs hxs
    match xs with
    | [] => rfl
    | x :: l =>
      have hdrop : ((x :: l).drop n).length ≤ m := by
        rw [List.length_drop]
        have : (x :: l).length ≤ m + 1 := hxs
        omega
      calc (chunksAux n (m + 1) (x :: l)).flatten
          = (x :: l).take n ++ (chunksAux n m ((x :: l).drop n)).flatten := by
            simp [chunksAux]
        _ = (x :: l).take n ++ (x :: l).drop n := by rw [ih _ hdrop]
        _ = x :: l := List.take_append_drop n (x :: l)

theorem chunks_flatten (n : Nat) (hn : 0 < n) (xs : List Nat) :
    (chunks n xs).flatten = xs :=
  chunksAux_flatten n hn xs.length xs (Nat.le_refl _)

theorem chunksOf_flatten (n : Nat) (hn : 0 < n) (P : List Nat) :
    (chunksOf n P).flatten = P := by
  unfold chunksOf
  by_cases hP : P = []
  · subst hP; rfl
  · rw [if_neg hP]; exact chunks_flatten n hn P

theorem chunksOf_ne_nil (n : Nat) (P : List Nat) : chunksOf n P ≠ [] := by
  unfold chunksOf
  by_cases hP : P = []
  · simp [hP]
  · rw [if_neg hP]
    match P, hP with
    | x :: l, _ =>
      simp only [chunks, List.length_cons, chunksAux]
      exact List.cons_ne_nil _ _

theorem mkFrags_length (pid t : Nat) :
    ∀ (cs : List (List Nat)) (i : Nat), (mkFrags pid t i cs).length = cs.length := by
  intro cs
  induction cs with
  | nil => intro i; rfl
  | cons c cs ih => intro i; simp [mkFrags, ih]

theorem mem_mkFrags (pid t : Nat) :
    ∀ (cs : List (List Nat)) (i : Nat) (f : Fragment),
      f ∈ mkFrags pid t i cs ↔
        ∃ j, ∃ hj : j < cs.length, f = ⟨pid, i + j, t, cs.get ⟨j, hj⟩⟩ := by
  intro cs
  induction cs with
  | nil =>
    intro i f
    simp [mkFrags]
  | cons c cs ih =>
    intro i f
    simp only [mkFrags, List.mem_cons, ih (i + 1) f]
    constructor
    · rintro (rfl | ⟨j, hj, rfl⟩)
      · exact ⟨0, Nat.succ_pos _, by simp⟩
      · refine ⟨j + 1, Nat.succ_lt_succ hj, ?_⟩
        simp [Nat.add_assoc, Nat.add_comm 1 j]
    · rintro ⟨j, hj, rfl⟩
      match j with
      | 0 => left; simp
      | j + 1 =>
        right
        refine ⟨j, Nat.lt_of_succ_lt_succ hj, ?_⟩
        simp [Nat.add_assoc, Nat.add_comm 1 j]

theorem mem_fragment (pid n : Nat) (P : List Nat) (f : Fragment) :
    f ∈ fragment pid P n ↔
      ∃ j, ∃ hj : j < (chunksOf n P).length,
        f = ⟨pid, j, (chunksOf n P).length, (chunksOf n P).get ⟨j, hj⟩⟩ := by
  unfold fragment
  rw [mem_mkFrags]
  simp

theorem fragment_length (pid n : Nat) (P : List Nat) :
    (fragment pid P n).length = (chunksOf n P).length := by
  unfold fragment
  exact mkFrags_length pid _ _ 0

theorem fragment_ne_nil (pid n : Nat) (P : List Nat) : fragment pid P n ≠ [] := by
  intro h
  have h1 : (fragment pid P n).length = 0 := by rw [h]; rfl
  rw [fragment_length] at h1
  exact chunksOf_ne_nil n P (List.eq_nil_of_length_eq_zero h1)

theorem collectChunks_take (fs : List Fragment) (cs : List (List Nat)) :
    ∀ (t : Nat) (ht : t ≤ cs.length),
      (∀ i (hi : i < t), ∃ g, findChunk fs i = some g ∧
          g.data = cs.get ⟨i, Nat.lt_of_lt_of_le hi ht⟩) →
      collectChunks fs t = some (cs.take t) := by
  intro t
  induction t with
  | zero => intro ht hfind; rfl
  | succ m ih =>
    intro ht hfind
    have hm : m ≤ cs.length := Nat.le_of_succ_le ht
    have hrec : collectChunks fs m = some (cs.take m) := by
      apply ih hm
      intro i hi
      obtain ⟨g, hg, hgd⟩ := hfind i (Nat.lt_succ_of_lt hi)
      exact ⟨g, hg, hgd⟩
    obtain ⟨g, hg, hgd⟩ := hfind m (Nat.lt_succ_self m)
    have hml : m < cs.length := Nat.lt_of_lt_of_le (Nat.lt_succ_self m) ht
    have : collectChunks fs (m + 1) = some (cs.take m ++ [g.data]) := by
      simp [collectChunks, hrec, hg]
    rw [this, hgd]
    congr 1
    rw [List.take_succ, List.getElem?_eq_getElem hml]
    rfl

theorem reassemble_fragment_perm (pid n : Nat) (P : List Nat) (hn : 0 < n)
    (fs : List Fragment) (hperm : List.Perm fs (fragment pid P n)) :
    reassemble fs = some P := by
  have hmem : ∀ f : Fragment, f ∈ fs ↔ f ∈ fragment pid P n := fun f => hperm.mem_iff
  have hlen : fs.length = (chunksOf n P).length :=
    hperm.length_eq.trans (fragment_length pid n P)
  match fs, hperm, hmem, hlen with
  | [], hperm, _, _ =>
    exact absurd (List.Perm.eq_nil hperm.symm) (fragment_ne_nil pid n P)
  | f :: rest, hperm, hmem, hlen =>
    obtain ⟨j, hj, hfeq⟩ := (mem_fragment pid n P f).mp ((hmem f).mp (List.mem_cons_self f rest))
    have hft : f.total = (chunksOf n P).length := by rw [hfeq]
    have hfp : f.payloadId = pid := by rw [hfeq]
    have hcond1 : ((f :: rest).length == f.total) = true := by
      rw [beq_iff_eq, hlen, hft]
    have hcond2 : (f :: rest).all
        (fun g => (g.payloadId == f.payloadId) && (g.total == f.total)) = true := by
      rw [List.all_eq_true]
      intro g hg
      obtain ⟨j2, hj2, hgeq⟩ := (mem_fragment pid n P g).mp ((hmem g).mp hg)
      have h1 : g.payloadId = pid := by rw [hgeq]
      have h2 : g.total = (chunksOf n P).length := by rw [hgeq]
      simp [h1, h2, hfp, hft]
    have hfind : ∀ i (hi : i < (chunksOf n P).length),
        ∃ g, findChunk (f :: rest) i = some g ∧
          g.data = (chunksOf n P).get ⟨i, Nat.lt_of_lt_of_le hi (Nat.le_refl _)⟩ := by
      intro i hi
      have hwit : (⟨pid, i, (chunksOf n P).length, (chunksOf n P).get ⟨i, hi⟩⟩ : Fragment)
          ∈ f :: rest := by
        rw [hmem, mem_fragment]
        exact ⟨i, hi, rfl⟩
      have hsome : (findChunk (f :: rest) i).isSome := by
        rw [findChunk, List.find?_isSome]
        exact ⟨_, hwit, by simp⟩
      obtain ⟨g, hg⟩ := Option.isSome_iff_exists.mp hsome
      refine ⟨g, hg, ?_⟩
      have hgseq : g.seqNr = i := by
        have := List.find?_some hg
        rwa [beq_iff_eq] at this
      have hgmem : g ∈ f :: rest := List.mem_of_find?_eq_some hg
      obtain ⟨j3, hj3, hgeq⟩ := (mem_fragment pid n P g).mp ((hmem g).mp hgmem)
      have hj3i : j3 = i := by
        rw [← hgseq, hgeq]
      subst hj3i
      rw [hgeq]
    have hcollect : collectChunks (f :: rest) ((chunksOf n P).length)
        = some ((chunksOf n P).take ((chunksOf n P).length)) :=
      collectChunks_take (f :: rest) (chunksOf n P) ((chunksOf n P).length)
        (Nat.le_refl _) hfind
    show (if ((f :: rest).length == f.total)
          && (f :: rest).all (fun g => (g.payloadId == f.payloadId) && (g.total == f.total))
        then (collectChunks (f :: rest) f.total).map List.flatten
        else none) = some P
    rw [hcond1, hcond2, Bool.and_self, if_pos rfl, hft, hcollect, List.take_length]
    simp [chunksOf_flatten n hn P]

/-- C1: feeding all fragments produced by `fragment(P, n)` into `reassemble`,
in any wire order, reconstructs the payload P exactly (the timeout never fires
here since all fragments are present in the received batch). -/
theorem framer_roundtrip_any_order (pid n : Nat) (P : List Nat) (hn : 0 < n)
    (fs : List Fragment) (hperm : List.Perm fs (fragment pid P n)) :
    reassemble fs = some P :=
  reassemble_fragment_perm pid n P hn fs hperm

/-- Witness for C1: a payload split at fragment size 2, with fragments
delivered in reversed wire order, reassembles to the original payload. -/
theorem framer_roundtrip_any_order_witness :
    reassemble [⟨7, 1, 2, [3]⟩, ⟨7, 0, 2, [1, 2]⟩] = some [1, 2, 3] :=
  framer_roundtrip_any_order 7 2 [1, 2, 3] (by decide)
    [⟨7, 1, 2, [3]⟩, ⟨7, 0, 2, [1, 2]⟩] (by decide)

/-- C4: `fragment` never returns zero fragments, and an empty payload yields
exactly one empty fragment. -/
theorem fragment_never_empty (pid n : Nat) (P : List Nat) :
    fragment pid P n ≠ [] ∧ fragment pid [] n = [⟨pid, 0, 1, []⟩] :=
  ⟨fragment_ne_nil pid n P, rfl⟩

theorem chunksAux_fuel (n : Nat) (hn : 0 < n) :
    ∀ (fuel fuel' : Nat) (xs : List Nat), xs.length ≤ fuel → xs.length ≤ fuel' →
      chunksAux n fuel xs = chunksAux n fuel' xs := by
  intro fuel
  induction fuel with
  | zero =>
    intro fuel' xs h h'
    have hxs : xs = [] := List.eq_nil_of_length_eq_zero (Nat.le_zero.mp h)
    subst hxs
    cases fuel' <;> rfl
  | succ m ih =>
    intro fuel' xs h h'
    match xs with
    | [] => cases fuel' <;> rfl
    | x :: l =>
      match fuel' with
      | 0 => exact absurd h' (by simp)
      | k + 1 =>
        simp only [chunksAux]
        congr 1
        apply ih k
        · rw [List.length_drop]
          have : (x :: l).length ≤ m + 1 := h
          omega
        · rw [List.length_drop]
          have : (x :: l).length ≤ k + 1 := h'
          omega

theorem chunks_eq_cons (n : Nat) (hn : 0 < n) (xs : List Nat) (hx : xs ≠ []) :
    chunks n xs = xs.take n :: chunks n (xs.drop n) := by
  match xs, hx with
  | x :: l, _ =>
    show chunksAux n (x :: l).length (x :: l) = _
    simp only [List.length_cons, chunksAux]
    congr 1
    apply chunksAux_fuel n hn
    · rw [List.length_drop, List.length_cons]; omega
    · exact Nat.le_refl _

/-- The default fragment used for positional lookup. -/
def noFrag : Fragment := ⟨0, 0, 0, []⟩

/-- Positional lookup of the i-th produced fragment. -/
def nthFrag (frags : List Fragment) (i : Nat) : Fragment := frags.getD i noFrag

theorem chunksOf_5000_1200 (P : List Nat) (hP : P.length = 5000) :
    chunksOf 1200 P = [P.take 1200, (P.drop 1200).take 1200, (P.drop 2400).take 1200,
      (P.drop 3600).take 1200, P.drop 4800] := by
  have hd : ∀ k : Nat, (P.drop k).length = 5000 - k := by
    intro k; rw [List.length_drop, hP]
  have hne : ∀ k : Nat, k < 5000 → P.drop k ≠ [] := by
    intro k hk h
    have := hd k
    rw [h] at this
    simp at this
    omega
  have hP0 : P ≠ [] := by
    intro h; rw [h] at hP; simp at hP
  have h12 : (0 : Nat) < 1200 := by norm_num
  have e4 : chunks 1200 (P.drop 4800) = [P.drop 4800] := by
    rw [chunks_eq_cons 1200 h12 _ (hne 4800 (by norm_num))]
    rw [List.take_of_length_le (by rw [hd]; norm_num)]
    rw [show (P.drop 4800).drop 1200 = [] from
      List.drop_eq_nil_iff.mpr (by rw [hd]; norm_num)]
    rfl
  have e3 : chunks 1200 (P.drop 3600) = [(P.drop 3600).take 1200, P.drop 4800] := by
    rw [chunks_eq_cons 1200 h12 _ (hne 3600 (by norm_num))]
    rw [List.drop_drop]
    norm_num
    rw [e4]
  have e2 : chunks 1200 (P.drop 2400)
      = [(P.drop 2400).take 1200, (P.drop 3600).take 1200, P.drop 4800] := by
    rw [chunks_eq_cons 1200 h12 _ (hne 2400 (by norm_num))]
    rw [List.drop_drop]
    norm_num
    rw [e3]
  have e1 : chunks 1200 (P.drop 1200)
      = [(P.drop 1200).take 1200, (P.drop 2400).take 1200,
          (P.drop 3600).take 1200, P.drop 4800] := by
    rw [chunks_eq_cons 1200 h12 _ (hne 1200 (by norm_num))]
    rw [List.drop_drop]
    norm_num
    rw [e2]
  unfold chunksOf
  rw [if_neg hP0, chunks_eq_cons 1200 h12 P hP0, e1]

/-- C7: a payload of 5000 bytes at fragment size 1200 yields exactly 5
fragments of sizes 1200, 1200, 1200, 1200, 200, and reassembly from those
fragments delivered in wire order [3, 1, 4, 2, 0] yields the original
payload. -/
theorem scenario_payload_5000 (pid : Nat) (P : List Nat) (hP : P.length = 5000) :
    (fragment pid P 1200).map (fun f => f.data.length) = [1200, 1200, 1200, 1200, 200] ∧
    reassemble [nthFrag (fragment pid P 1200) 3, nthFrag (fragment pid P 1200) 1,
      nthFrag (fragment pid P 1200) 4, nthFrag (fragment pid P 1200) 2,
      nthFrag (fragment pid P 1200) 0] = some P := by
  have hcs := chunksOf_5000_1200 P hP
  have hfrags : fragment pid P 1200 =
      [⟨pid, 0, 5, P.take 1200⟩, ⟨pid, 1, 5, (P.drop 1200).take 1200⟩,
        ⟨pid, 2, 5, (P.drop 2400).take 1200⟩, ⟨pid, 3, 5, (P.drop 3600).take 1200⟩,
        ⟨pid, 4, 5, P.drop 4800⟩] := by
    unfold fragment
    rw [hcs]
    rfl
  constructor
  · rw [hfrags]
    simp [List.length_take, List.length_drop, hP]
  · have hperm : List.Perm
        [nthFrag (fragment pid P 1200) 3, nthFrag (fragment pid P 1200) 1,
          nthFrag (fragment pid P 1200) 4, nthFrag (fragment pid P 1200) 2,
          nthFrag (fragment pid P 1200) 0] (fragment pid P 1200) := by
      rw [hfrags]
      show List.Perm ([⟨pid, 3, 5, (P.drop 3600).take 1200⟩,
        ⟨pid, 1, 5, (P.drop 1200).take 1200⟩, ⟨pid, 4, 5, P.drop 4800⟩,
        ⟨pid, 2, 5, (P.drop 2400).take 1200⟩, ⟨pid, 0, 5, P.take 1200⟩] : List Fragment) _
      refine List.Perm.trans
        (@List.perm_middle Fragment ⟨pid, 0, 5, P.take 1200⟩
          [⟨pid, 3, 5, (P.drop 3600).take 1200⟩, ⟨pid, 1, 5, (P.drop 1200).take 1200⟩,
            ⟨pid, 4, 5, P.drop 4800⟩, ⟨pid, 2, 5, (P.drop 2400).take 1200⟩] []) ?_
      apply List.Perm.cons
      refine List.Perm.trans
        (@List.perm_middle Fragment ⟨pid, 1, 5, (P.drop 1200).take 1200⟩
          [⟨pid, 3, 5, (P.drop 3600).take 1200⟩]
          [⟨pid, 4, 5, P.drop 4800⟩, ⟨pid, 2, 5, (P.drop 2400).take 1200⟩]) ?_
      apply List.Perm.cons
      refine List.Perm.trans
        (@List.perm_middle Fragment ⟨pid, 2, 5, (P.drop 2400).take 1200⟩
          [⟨pid, 3, 5, (P.drop 3600).take 1200⟩, ⟨pid, 4, 5, P.drop 4800⟩] []) ?_
      apply List.Perm.cons
      exact List.Perm.refl _
    exact reassemble_fragment_perm pid 1200 P (by norm_num) _ hperm

/-- Witness for C7: the scenario instantiated at the all-zero 5000-byte
payload. -/
theorem scenario_payload_5000_witness :
    (fragment 0 (List.replicate 5000 0) 1200).map (fun f => f.data.length)
        = [1200, 1200, 1200, 1200, 200] ∧
    reassemble [nthFrag (fragment 0 (List.replicate 5000 0) 1200) 3,
      nthFrag (fragment 0 (List.replicate 5000 0) 1200) 1,
      nthFrag (fragment 0 (List.replicate 5000 0) 1200) 4,
      nthFrag (fragment 0 (List.replicate 5000 0) 1200) 2,
      nthFrag (fragment 0 (List.replicate 5000 0) 1200) 0] = some (List.replicate 5000 0) :=
  scenario_payload_5000 0 (List.replicate 5000 0) (by rw [List.length_replicate])

/-- Modelled from the spec: the protocol version carried in the packet
header. -/
def protocolVersion : Nat := 1

/-- Modelled from the spec: the fixed packet size (the scenario in the
specification fixes it at 512 bytes). -/
def packetSize : Nat := 512

/-- Modelled from the spec: header size — version (1 byte), body length
(2 bytes), fragment sequence and total (2 bytes each), payload id
(16 bytes). -/
def headerSize : Nat := 23

/-- The fixed packet capacity left for the fragment body. -/
def bodyCapacity : Nat := packetSize - headerSize

/-- Modelled from the spec: routing information handed to the codec; the
mix route itself is handled by the opaque Sphinx layer, so the codec only
threads it through. -/
structure RoutingInfo where
  gateway : Nat
deriving DecidableEq

/-- Big-endian serialization of a natural number into w bytes. -/
def natToBytes : Nat → Nat → List Nat
  | 0, _ => []
  | w + 1, v => natToBytes w (v / 256) ++ [v % 256]

/-- Big-endian deserialization of a byte list. -/
def bytesToNat (bs : List Nat) : Nat := bs.foldl (fun acc b => acc * 256 + b) 0

/-- Modelled from the spec: `encode(fragment, routingInfo)` produces the
bit-exact fixed-length binary layout — header (version, length, fragment
metadata, payload id) followed by the body padded to the fixed packet size;
fails with `EncodingTooLarge` when the fragment exceeds the packet
capacity.  Encryption is an opaque external capability and is therefore not
part of the byte-level model. -/
def encode (f : Fragment) (_ri : RoutingInfo) : Except NymError (List Nat) :=
  if f.data.length ≤ bodyCapacity then
    Except.ok (protocolVersion :: (natToBytes 2 f.data.length ++ (natToBytes 2 f.seqNr
      ++ (natToBytes 2 f.total ++ (natToBytes 16 f.payloadId
      ++ (f.data ++ List.replicate (bodyCapacity - f.data.length) 0))))))
  else Except.error NymError.EncodingTooLarge

/-- Modelled from the spec: `decode(bytes)` validates the length and version
fields before interpreting the body; fails with `MalformedPacket` on a length
mismatch and `UnsupportedVersion` on a version mismatch. -/
def decode (bytes : List Nat) : Except NymError Fragment :=
  if bytes.length ≠ packetSize then Except.error NymError.MalformedPacket
  else if bytes.getD 0 0 ≠ protocolVersion then Except.error NymError.UnsupportedVersion
  else if bodyCapacity < bytesToNat ((bytes.drop 1).take 2) then
    Except.error NymError.MalformedPacket
  else Except.ok ⟨bytesToNat ((bytes.drop 7).take 16), bytesToNat ((bytes.drop 3).take 2),
    bytesToNat ((bytes.drop 5).take 2),
    (bytes.drop headerSize).take (bytesToNat ((bytes.drop 1).take 2))⟩

theorem natToBytes_length (w v : Nat) : (natToBytes w v).length = w := by
  induction w generalizing v with
  | zero => rfl
  | succ m ih => simp [natToBytes, ih]

theorem bytesToNat_append_single (l : List Nat) (b : Nat) :
    bytesToNat (l ++ [b]) = bytesToNat l * 256 + b := by
  simp [bytesToNat, List.foldl_append]

theorem bytesToNat_natToBytes (w v : Nat) (h : v < 256 ^ w) :
    bytesToNat (natToBytes w v) = v := by
  induction w generalizing v with
  | zero =>
    have : v = 0 := by
      have : v < 1 := by simpa using h
      omega
    subst this
    rfl
  | succ m ih =>
    have hdiv : v / 256 < 256 ^ m := by
      rw [Nat.div_lt_iff_lt_mul (by norm_num : (0:Nat) < 256)]
      calc v < 256 ^ (m + 1) := h
        _ = 256 ^ m * 256 := by rw [Nat.pow_succ]
    rw [natToBytes, bytesToNat_append_single, ih _ hdiv]
    omega

theorem decode_layout (L S T I D R : List Nat)
    (hL : L.length = 2) (hS : S.length = 2) (hT : T.length = 2) (hI : I.length = 16)
    (hR : R.length = bodyCapacity - D.length) (hcap : D.length ≤ bodyCapacity)
    (hLv : bytesToNat L = D.length) :
    decode (protocolVersion :: (L ++ (S ++ (T ++ (I ++ (D ++ R)))))) =
      Except.ok ⟨bytesToNat I, bytesToNat S, bytesToNat T, D⟩ := by
  have hcap489 : D.length ≤ 489 := by
    have : bodyCapacity = 489 := by norm_num [bodyCapacity, packetSize, headerSize]
    omega
  have hlen512 : (protocolVersion :: (L ++ (S ++ (T ++ (I ++ (D ++ R)))))).length
      = packetSize := by
    simp only [List.length_cons, List.length_append, hL, hS, hT, hI, hR]
    have : bodyCapacity = 489 := by norm_num [bodyCapacity, packetSize, headerSize]
    rw [this]
    show 2 + (2 + (2 + (16 + (D.length + (489 - D.length))))) + 1 = packetSize
    have hps : packetSize = 512 := rfl
    omega
  have e1 : (protocolVersion :: (L ++ (S ++ (T ++ (I ++ (D ++ R)))))).drop 1
      = L ++ (S ++ (T ++ (I ++ (D ++ R)))) := rfl
  have e3 : (protocolVersion :: (L ++ (S ++ (T ++ (I ++ (D ++ R)))))).drop 3
      = S ++ (T ++ (I ++ (D ++ R))) := by
    calc (protocolVersion :: (L ++ (S ++ (T ++ (I ++ (D ++ R)))))).drop 3
        = ((protocolVersion :: (L ++ (S ++ (T ++ (I ++ (D ++ R)))))).drop 1).drop 2 :=
          (List.drop_drop 2 1 _).symm
      _ = (L ++ (S ++ (T ++ (I ++ (D ++ R))))).drop 2 := by rw [e1]
      _ = S ++ (T ++ (I ++ (D ++ R))) := List.drop_left' hL
  have e5 : (protocolVersion :: (L ++ (S ++ (T ++ (I ++ (D ++ R)))))).drop 5
      = T ++ (I ++ (D ++ R)) := by
    calc (protocolVersion :: (L ++ (S ++ (T ++ (I ++ (D ++ R)))))).drop 5
        = ((protocolVersion :: (L ++ (S ++ (T ++ (I ++ (D ++ R)))))).drop 3).drop 2 :=
          (List.drop_drop 2 3 _).symm
      _ = (S ++ (T ++ (I ++ (D ++ R)))).drop 2 := by rw [e3]
      _ = T ++ (I ++ (D ++ R)) := List.drop_left' hS
  have e7 : (protocolVersion :: (L ++ (S ++ (T ++ (I ++ (D ++ R)))))).drop 7
      = I ++ (D ++ R) := by
    calc (protocolVersion :: (L ++ (S ++ (T ++ (I ++ (D ++ R)))))).drop 7
        = ((protocolVersion :: (L ++ (S ++ (T ++ (I ++ (D ++ R)))))).drop 5).drop 2 :=
          (List.drop_drop 2 5 _).symm
      _ = (T ++ (I ++ (D ++ R))).drop 2 := by rw [e5]
      _ = I ++ (D ++ R) := List.drop_left' hT
  have e23 : (protocolVersion :: (L ++ (S ++ (T ++ (I ++ (D ++ R)))))).drop headerSize
      = D ++ R := by
    calc (protocolVersion :: (L ++ (S ++ (T ++ (I ++ (D ++ R)))))).drop headerSize
        = ((protocolVersion :: (L ++ (S ++ (T ++ (I ++ (D ++ R)))))).drop 7).drop 16 :=
          (List.drop_drop 16 7 _).symm
      _ = (I ++ (D ++ R)).drop 16 := by rw [e7]
      _ = D ++ R := List.drop_left' hI
  have egd : (protocolVersion :: (L ++ (S ++ (T ++ (I ++ (D ++ R)))))).getD 0 0
      = protocolVersion := rfl
  unfold decode
  rw [hlen512, if_neg (by simp)]
  rw [egd, if_neg (by simp)]
  rw [e1, List.take_left' hL, hLv]
  rw [if_neg (Nat.not_lt.mpr hcap)]
  rw [e3, List.take_left' hS]
  rw [e5, List.take_left' hT]
  rw [e7, List.take_left' hI]
  rw [e23, List.take_left' rfl]

theorem bind_ok_decode (x : List Nat) :
    (Except.ok x : Except NymError (List Nat)).bind decode = decode x := rfl

/-- C2: for every fragment whose body does not exceed the fixed packet
capacity (and whose metadata fits the header field widths: 2-byte sequence
and total, 16-byte payload id), `decode` after `encode` returns the original
fragment. -/
theorem codec_roundtrip (f : Fragment) (ri : RoutingInfo)
    (hdata : f.data.length ≤ bodyCapacity) (hseq : f.seqNr < 2 ^ 16)
    (htot : f.total < 2 ^ 16) (hpid : f.payloadId < 2 ^ 128) :
    (encode f ri).bind decode = Except.ok f := by
  have h216 : (256 : Nat) ^ 2 = 2 ^ 16 := by norm_num
  have h2128 : (256 : Nat) ^ 16 = 2 ^ 128 := by norm_num
  have hlenlt : f.data.length < 256 ^ 2 := by
    have : bodyCapacity = 489 := by norm_num [bodyCapacity, packetSize, headerSize]
    omega
  unfold encode
  rw [if_pos hdata, bind_ok_decode]
  rw [decode_layout (natToBytes 2 f.data.length) (natToBytes 2 f.seqNr)
    (natToBytes 2 f.total) (natToBytes 16 f.payloadId) f.data
    (List.replicate (bodyCapacity - f.data.length) 0)
    (natToBytes_length 2 _) (natToBytes_length 2 _) (natToBytes_length 2 _)
    (natToBytes_length 16 _) (by simp) hdata
    (bytesToNat_natToBytes 2 _ hlenlt)]
  rw [bytesToNat_natToBytes 16 _ (by rw [h2128]; exact hpid),
    bytesToNat_natToBytes 2 _ (by rw [h216]; exact hseq),
    bytesToNat_natToBytes 2 _ (by rw [h216]; exact htot)]

/-- Witness for C2: a small in-capacity fragment round-trips through the
codec. -/
theorem codec_roundtrip_witness :
    (encode ⟨3, 1, 2, [42]⟩ ⟨0⟩).bind decode = Except.ok ⟨3, 1, 2, [42]⟩ :=
  codec_roundtrip ⟨3, 1, 2, [42]⟩ ⟨0⟩ (by decide) (by decide) (by decide) (by decide)

/-- C6: `decode` validates the overall length and the version field before
interpreting the body — a buffer whose length differs from the fixed packet
size fails with `MalformedPacket`, a correct-length buffer with an unexpected
version byte fails with `UnsupportedVersion`, a correct-length and
correct-version buffer whose declared body length exceeds the capacity fails
with `MalformedPacket`, and in particular a 10-byte buffer (with the fixed
packet size at 512) fails with `MalformedPacket`. -/
theorem decode_validates (bytes : List Nat) :
    (bytes.length ≠ packetSize → decode bytes = Except.error NymError.MalformedPacket) ∧
    (bytes.length = packetSize → bytes.getD 0 0 ≠ protocolVersion →
      decode bytes = Except.error NymError.UnsupportedVersion) ∧
    (bytes.length = packetSize → bytes.getD 0 0 = protocolVersion →
      bodyCapacity < bytesToNat ((bytes.drop 1).take 2) →
      decode bytes = Except.error NymError.MalformedPacket) ∧
    decode (List.replicate 10 0) = Except.error NymError.MalformedPacket := by
  refine ⟨?_, ?_, ?_, ?_⟩
  · intro h
    unfold decode
    rw [if_pos h]
  · intro hlen hver
    unfold decode
    rw [if_neg (fun h => h hlen), if_pos hver]
  · intro hlen hver hcap
    unfold decode
    rw [if_neg (fun h => h hlen), if_neg (fun h => h hver), if_pos hcap]
  · rfl

/-- Witness for C6: the 10-byte buffer of the scenario, and a 512-byte buffer
with version byte 9. -/
theorem decode_validates_witness :
    decode (List.replicate 10 0) = Except.error NymError.MalformedPacket ∧
    decode (List.replicate 512 9) = Except.error NymError.UnsupportedVersion :=
  ⟨(decode_validates (List.replicate 10 0)).2.2.2,
    (decode_validates (List.replicate 512 9)).2.1
      (by rw [List.length_replicate]; rfl) (by decide)⟩

/-- Modelled from the spec: the Session Manager state machine
`Disconnected → Handshaking → Established → Draining → Disconnected`. -/
inductive SessionState where
  | Disconnected
  | Handshaking
  | Established
  | Draining
deriving DecidableEq

/-- Modelled from the spec: a Session carries its state-machine state and the
outbound sequence counter (key material and liveness are opaque to the claims
treated here). -/
structure Session where
  state : SessionState
  outSeq : Nat
deriving DecidableEq

/-- Modelled from the spec: `send(packet)` requires the `Established` state
and fails with `NotConnected` otherwise; on success it updates the outbound
sequence counter. -/
def send (s : Session) (_pkt : List Nat) : Except NymError Session :=
  match s.state with
  | SessionState.Established => Except.ok { s with outSeq := s.outSeq + 1 }
  | _ => Except.error NymError.NotConnected

/-- C5: `send` on a session not in `Established` state (in particular
`Disconnected`) fails with `NotConnected`; in `Established` state it succeeds
and increments the outbound sequence counter. -/
theorem send_requires_established (s : Session) (pkt : List Nat) :
    (s.state ≠ SessionState.Established →
      send s pkt = Except.error NymError.NotConnected) ∧
    (s.state = SessionState.Established →
      send s pkt = Except.ok { s with outSeq := s.outSeq + 1 }) := by
  constructor
  · intro h
    unfold send
    match hs : s.state with
    | SessionState.Disconnected => rfl
    | SessionState.Handshaking => rfl
    | SessionState.Established => exact absurd hs h
    | SessionState.Draining => rfl
  · intro h
    unfold send
    rw [h]

/-- Witness for C5: a `Disconnected` session rejects `send` with
`NotConnected`, and an `Established` session accepts it and bumps the
counter. -/
theorem send_requires_established_witness :
    send ⟨SessionState.Disconnected, 0⟩ [1, 2] = Except.error NymError.NotConnected ∧
    send ⟨SessionState.Established, 5⟩ [1, 2] = Except.ok ⟨SessionState.Established, 6⟩ :=
  ⟨(send_requires_established ⟨SessionState.Disconnected, 0⟩ [1, 2]).1 (by decide),
    (send_requires_established ⟨SessionState.Established, 5⟩ [1, 2]).2 rfl⟩

/-- The session produced by a successful handshake. -/
def establishedSession : Session := ⟨SessionState.Established, 0⟩

/-- Modelled from the spec: the retry loop of `connect`.  The handshake
outcome of each attempt is an oracle indexed by the attempt number; the
returned list records the backoff delay waited before each retry, doubling
each time.  The fuel is the number of attempts still allowed. -/
def connectLoop (handshake : Nat → Bool) (delay attempt : Nat) :
    Nat → Except NymError Session × List Nat
  | 0 => (Except.error NymError.HandshakeFailed, [])
  | fuel + 1 =>
    if handshake attempt then (Except.ok establishedSession, [])
    else
      match fuel with
      | 0 => (Except.error NymError.HandshakeFailed, [])
      | m + 1 =>
        let r := connectLoop handshake (2 * delay) (attempt + 1) (m + 1)
        (r.1, delay :: r.2)

/-- Modelled from the spec: `connect(gatewayAddress)` performs the handshake,
retrying up to `retryBound` times with exponential backoff starting at
`baseDelay`, and surfaces `HandshakeFailed` only after the bound is
exhausted. -/
def connect (_gatewayAddress : Nat) (handshake : Nat → Bool)
    (retryBound baseDelay : Nat) : Except NymError Session × List Nat :=
  connectLoop handshake baseDelay 0 (retryBound + 1)

theorem connectLoop_allFail :
    ∀ (fuel d a : Nat), connectLoop (fun _ => false) d a (fuel + 1)
      = (Except.error NymError.HandshakeFailed,
          (List.range fuel).map (fun i => d * 2 ^ i)) := by
  intro fuel
  induction fuel with
  | zero => intro d a; rfl
  | succ m ih =>
    intro d a
    have step : connectLoop (fun _ => false) d a (m + 1 + 1)
        = ((connectLoop (fun _ => false) (2 * d) (a + 1) (m + 1)).1,
            d :: (connectLoop (fun _ => false) (2 * d) (a + 1) (m + 1)).2) := rfl
    have h2 : d :: (List.range m).map (fun i => 2 * d * 2 ^ i)
        = (List.range (m + 1)).map (fun i => d * 2 ^ i) := by
      rw [List.range_succ_eq_map, List.map_cons, List.map_map]
      congr 1
      · simp
      · apply List.map_congr_left
        intro i _
        simp only [Function.comp_apply, Nat.pow_succ]
        ring
    rw [step, ih (2 * d) (a + 1)]
    show (Except.error NymError.HandshakeFailed,
        d :: (List.range m).map (fun i => 2 * d * 2 ^ i))
      = (Except.error NymError.HandshakeFailed,
          (List.range (m + 1)).map (fun i => d * 2 ^ i))
    rw [h2]

theorem connectLoop_succeeds :
    ∀ (fuel a d k : Nat), a ≤ k → k < a + fuel →
      (connectLoop (fun x => x == k) d a fuel).1 = Except.ok establishedSession := by
  intro fuel
  induction fuel with
  | zero =>
    intro a d k h1 h2
    have : False := by omega
    exact this.elim
  | succ m ih =>
    intro a d k h1 h2
    unfold connectLoop
    simp only []
    by_cases hak : a = k
    · simp [hak]
    · have hbeq : (a == k) = false := by
        rw [beq_eq_false_iff_ne]
        exact hak
      rw [hbeq]
      simp only [Bool.false_eq_true, if_false]
      match m with
      | 0 =>
        have : False := by omega
        exact this.elim
      | m' + 1 =>
        exact ih (a + 1) (2 * d) k (by omega) (by omega)

/-- C8: `connect` retries the handshake up to the configured bound with
exponential backoff — with an always-failing handshake it surfaces
`HandshakeFailed` only after waiting the full doubling backoff sequence, with
a bound of 3 retries and base delay 100 it fails after the delays
100, 200, 400, and a handshake that succeeds at any attempt within the bound
yields an established session. -/
theorem connect_retries_with_backoff (b d k : Nat) :
    connect 0 (fun _ => false) b d
      = (Except.error NymError.HandshakeFailed,
          (List.range b).map (fun i => d * 2 ^ i)) ∧
    connect 0 (fun _ => false) 3 100
      = (Except.error NymError.HandshakeFailed, [100, 200, 400]) ∧
    (k ≤ b → (connect 0 (fun x => x == k) b d).1 = Except.ok establishedSession) := by
  refine ⟨connectLoop_allFail b d 0, ?_, ?_⟩
  · rw [show connect 0 (fun _ => false) 3 100 = connectLoop (fun _ => false) 100 0 (3 + 1)
      from rfl]
    rw [connectLoop_allFail 3 100 0]
    rfl
  · intro hk
    exact connectLoop_succeeds (b + 1) 0 d k (Nat.zero_le k) (by omega)

/-- Witness for C8: with a retry bound of 3, a handshake that first succeeds
on attempt 2 connects successfully. -/
theorem connect_retries_with_backoff_witness :
    (connect 0 (fun x => x == 2) 3 100).1 = Except.ok establishedSession :=
  (connect_retries_with_backoff 3 100 2).2.2 (by decide)

/-- One entry of the menu schema of the nym-connect Menu component
(src/nym-connect/src/pages/menu/index.tsx): a title, an icon, and a router
path. -/
structure MenuItem where
  title : String
  iconName : String
  path : String
deriving DecidableEq

/-- The constant two-entry menuSchema of the Menu component. -/
def menuSchema : List MenuItem :=
  [⟨"Supported apps", "Apps", "apps"⟩,
    ⟨"How to connect guide", "HelpOutline", "guide"⟩]

/-- A rendered navigation link: its router destination and its visible
text. -/
structure NavLink where
  dest : String
  text : String
deriving DecidableEq

/-- The Menu component body: it maps each schema entry, in order, to one
navigation link whose destination is the entry path and whose text is the
entry title; there is no other state or logic. -/
def renderMenu : List NavLink :=
  menuSchema.map (fun item => ⟨item.path, item.title⟩)

/-- C3: the Menu renders exactly one navigation link per schema entry, in
schema order, with destinations apps then guide and the corresponding
titles. -/
theorem menu_static_links :
    renderMenu = [⟨"apps", "Supported apps"⟩, ⟨"guide", "How to connect guide"⟩] ∧
    renderMenu.length = menuSchema.length ∧
    renderMenu.map NavLink.dest = menuSchema.map MenuItem.path ∧
    renderMenu.map NavLink.text = menuSchema.map MenuItem.title :=
  ⟨rfl, rfl, rfl, rfl⟩

/-- A plugin of the rollup worker bundle configuration
(src/sdk/typescript/packages/mix-fetch-node/rollup-worker.config.mjs), with
the options the config passes to it. -/
inductive RollupPlugin where
  | resolve (browser preferBuiltins : Bool) (extensions : List String)
  | commonjs
  | modify (find replacement : String)
  | wasm (targetEnv : String) (maxFileSize : Nat) (fileName : String)
  | typescript (outDir : String) (declaration : Bool) (target : String)
deriving DecidableEq

/-- The plugin list of the worker bundle configuration, in config order. -/
def workerPlugins : List RollupPlugin :=
  [RollupPlugin.resolve false true [".js", ".ts"],
    RollupPlugin.commonjs,
    RollupPlugin.modify "getObject(arg0).require(getStringFromWasm0(arg1, arg2));"
      "require(\"crypto\");",
    RollupPlugin.wasm "node" 0 "[name].wasm",
    RollupPlugin.typescript "dist/cjs" false "es5"]

/-- Char-list prefix test. -/
def leadsWith : List Char → List Char → Bool
  | [], _ => true
  | _ :: _, [] => false
  | c :: cs, d :: ds => c == d && leadsWith cs ds

/-- Replaces every occurrence of `find` by `repl` in a char list, scanning
left to right; the fuel bounds the scan length. -/
def replaceChars (find repl : List Char) : Nat → List Char → List Char
  | 0, code => code
  | _ + 1, [] => []
  | fuel + 1, c :: cs =>
    if leadsWith find (c :: cs) && !find.isEmpty then
      repl ++ replaceChars find repl fuel ((c :: cs).drop find.length)
    else c :: replaceChars find repl fuel cs

/-- The behaviour of the rollup-plugin-modify step: replace every occurrence
of the find string by the replacement string. -/
def applyModify (find repl code : String) : String :=
  String.mk (replaceChars find.toList repl.toList code.toList.length code.toList)

/-- The transformation a plugin applies to the bundled source text: only the
modify plugin rewrites the text. -/
def RollupPlugin.applyTo (p : RollupPlugin) (code : String) : String :=
  match p with
  | RollupPlugin.modify f r => applyModify f r code
  | _ => code

set_option maxRecDepth 4000 in
/-- C9: the worker bundler configuration contains (third in its plugin list)
a modify step that replaces every occurrence of the wasm-bindgen require
shim by a hard-coded require of the crypto module; applying that step to a
text with two occurrences rewrites both. -/
theorem worker_bundle_patches_require :
    workerPlugins.getD 2 RollupPlugin.commonjs
      = RollupPlugin.modify "getObject(arg0).require(getStringFromWasm0(arg1, arg2));"
          "require(\"crypto\");" ∧
    RollupPlugin.modify "getObject(arg0).require(getStringFromWasm0(arg1, arg2));"
        "require(\"crypto\");" ∈ workerPlugins ∧
    RollupPlugin.applyTo
        (RollupPlugin.modify "getObject(arg0).require(getStringFromWasm0(arg1, arg2));"
          "require(\"crypto\");")
        ("a = getObject(arg0).require(getStringFromWasm0(arg1, arg2)); b = getObject(arg0).require(getStringFromWasm0(arg1, arg2)); c")
      = "a = require(\"crypto\"); b = require(\"crypto\"); c" := by
  refine ⟨rfl, ?_, ?_⟩
  · exact List.mem_cons_of_mem _ (List.mem_cons_of_mem _ (List.mem_cons_self _ _))
  · rfl

/-- A rollup warning as seen by the config's onwarn handler. -/
structure RollupWarning where
  code : String
  message : String
deriving DecidableEq

/-- The onwarn handler of the worker bundle configuration: it logs the
warning message to console.error unless the warning is a circular dependency
warning; it is total, so no warning is ever escalated to an error. -/
def onwarn (w : RollupWarning) : Option String :=
  if w.code ≠ "CIRCULAR_DEPENDENCY" then some ("(!) " ++ w.message) else none

/-- C10: a warning is logged if and only if its code is not
CIRCULAR_DEPENDENCY; circular-dependency warnings are silently suppressed,
and whatever is logged is exactly the prefixed warning message (never an
error escalation). -/
theorem onwarn_suppresses_only_circular (w : RollupWarning) :
    ((onwarn w).isSome ↔ w.code ≠ "CIRCULAR_DEPENDENCY") ∧
    (w.code = "CIRCULAR_DEPENDENCY" → onwarn w = none) ∧
    (∀ v, onwarn w = some v → v = "(!) " ++ w.message) := by
  unfold onwarn
  by_cases h : w.code = "CIRCULAR_DEPENDENCY"
  · rw [if_neg (fun hne => hne h)]
    exact ⟨by simp [h], fun _ => rfl, fun v hv => by cases hv⟩
  · rw [if_pos h]
    refine ⟨by simp [h], fun hc => absurd hc h, fun v hv => ?_⟩
    injection hv with hv2
    exact hv2.symm

/-- Witness for C10: a circular-dependency warning is suppressed, and a
different warning is logged. -/
theorem onwarn_suppresses_only_circular_witness :
    onwarn ⟨"CIRCULAR_DEPENDENCY", "loop detected"⟩ = none ∧
    (onwarn ⟨"MISSING_EXPORT", "oops"⟩).isSome = true :=
  ⟨(onwarn_suppresses_only_circular ⟨"CIRCULAR_DEPENDENCY", "loop detected"⟩).2.1 rfl,
    (onwarn_suppresses_only_circular ⟨"MISSING_EXPORT", "oops"⟩).1.mpr (by decide)⟩
